import Mathlib

/--
Verification of the Komodo MCP server's core components, shallowly embedded
from the TypeScript source:

* the error sanitizer and credential-redaction registry
  (registerSensitivePattern, sanitizeMessage, handleKomodoError);
* the configuration loader (parseAccessTier, parseCategories, loadConfig);
* the access-tier gate (registerTool).

JavaScript strings are modelled as List Char.  String.prototype.replaceAll
and the three global case-insensitive header regex replacements are modelled
by a single left-to-right scanner (rewriteScan) parameterised by a matcher
returning the length of the match at the current position, which is exactly
the semantics of a global regex replace: leftmost match, non-overlapping,
scanning resumes after the end of each match.  The scanner carries explicit
fuel, one unit per character consumed, so that it is structurally recursive;
fuel equal to the length of the input plus one is always sufficient because
every step consumes at least one character.

JavaScript runtime values reaching the error handler are modelled by JSValue
over an explicit heap of objects, so that circular (self-referencing) objects
are representable; JSON.stringify is modelled with cycle detection as in V8,
and exception propagation by Except.
-/
def komodoVerificationOverview : String := "Komodo MCP server core verification"

namespace Komodo

/-- JavaScript whitespace as matched by the regex class backslash-s and
trimmed by String.prototype.trim (the common members). -/
def jsWs (c : Char) : Bool :=
  c == ' ' || c == '\t' || c == '\n' || c == '\r' ||
  c == '\x0b' || c == '\x0c' || c == ' ' || c == '﻿'

/-! ### Error sanitizer: src/core/errors.ts -/

/-- The redaction token the sanitizer substitutes for secrets. -/
def RED : List Char := "[REDACTED]".data

/-- The api-key header name matched case-insensitively by the first regex. -/
def KEYN : List Char := "x-api-key:".data

/-- The api-secret header name matched by the second regex. -/
def SECN : List Char := "x-api-secret:".data

/-- The authorization header name matched by the third regex. -/
def AUTHN : List Char := "authorization:".data

/-- Replacement text of the first header regex. -/
def KEYR : List Char := "x-api-key: [REDACTED]".data

/-- Replacement text of the second header regex. -/
def SECR : List Char := "x-api-secret: [REDACTED]".data

/-- Replacement text of the third header regex. -/
def AUTHR : List Char := "authorization: [REDACTED]".data

/-- Fueled global-replace scanner.  At each position the matcher m reports
the length of a match starting there (at least 1 for the matchers used
here); on a match the replacement t is emitted and scanning resumes after
the matched region, otherwise the character is copied. -/
def rewriteScanF (m : List Char → Option Nat) (t : List Char) :
    Nat → List Char → List Char
  | 0, s => s
  | _ + 1, [] => []
  | fuel + 1, c :: s =>
    match m (c :: s) with
    | some L => t ++ rewriteScanF m t fuel (s.drop (L - 1))
    | none => c :: rewriteScanF m t fuel s

/-- Global replace: the fueled scanner run with always-sufficient fuel. -/
def rewriteScan (m : List Char → Option Nat) (t : List Char) (s : List Char) :
    List Char :=
  rewriteScanF m t (s.length + 1) s

/-- Matcher for a literal pattern, as used by String.prototype.replaceAll. -/
def exactMatcher (p : List Char) (s : List Char) : Option Nat :=
  if p.isPrefixOf s then some p.length else none

/-- Case-insensitive literal prefix test, modelling the i flag of the
header regexes (the header names are ASCII). -/
def ciPrefix (p s : List Char) : Bool :=
  (s.take p.length).map Char.toLower == p.map Char.toLower

/-- Matcher for a header regex: the header name case-insensitively, then
any run of whitespace, then at least one non-whitespace character, exactly
as the pattern name-colon backslash-s-star backslash-S-plus. -/
def headerMatcher (name : List Char) (s : List Char) : Option Nat :=
  if ciPrefix name s then
    let rest := s.drop name.length
    let wsn := (rest.takeWhile jsWs).length
    let rest2 := rest.drop wsn
    let nwn := (rest2.takeWhile (fun c => !(jsWs c))).length
    if nwn == 0 then none else some (name.length + wsn + nwn)
  else none

/-- String.prototype.replaceAll with a literal pattern.  An empty pattern
inserts the replacement before every character and at the end, as in
JavaScript; a non-empty pattern is replaced by the left-to-right scanner. -/
def replaceAllL (p r s : List Char) : List Char :=
  if p.isEmpty then r ++ s.flatMap (fun c => c :: r)
  else rewriteScan (exactMatcher p) r s

/-- registerSensitivePattern: appends a non-empty pattern to the mutable
SENSITIVE_PATTERNS array, ignores empty ones. -/
def registerSensitivePattern (pattern : List Char) (reg : List (List Char)) :
    List (List Char) :=
  if !pattern.isEmpty then reg ++ [pattern] else reg

/-- The registry state reached by calling registerSensitivePattern on each
input in order, starting from the empty initial registry. -/
def registryFrom (inputs : List (List Char)) : List (List Char) :=
  inputs.foldl (fun reg p => registerSensitivePattern p reg) []

/-- sanitizeMessage: replaceAll of every registered pattern in registration
order with the redaction token, then the three global case-insensitive
header regex replacements, in source order. -/
def sanitizeMessage (reg : List (List Char)) (message : List Char) :
    List Char :=
  let afterSecrets :=
    reg.foldl (fun sanitized pattern => replaceAllL pattern RED sanitized)
      message
  rewriteScan (headerMatcher AUTHN) AUTHR
    (rewriteScan (headerMatcher SECN) SECR
      (rewriteScan (headerMatcher KEYN) KEYR afterSecrets))

/-- sanitizeMessage lifted to Lean String. -/
def sanitizeS (reg : List (List Char)) (s : String) : String :=
  String.mk (sanitizeMessage reg s.data)

/-- One content block of an MCP tool response. -/
structure McpContentBlock where
  type : String
  text : String
deriving DecidableEq

/-- MCP-compliant error response shape with the isError flag. -/
structure McpErrorResponse where
  content : List McpContentBlock
  isError : Bool
deriving DecidableEq

/-! ### JavaScript value model for the error argument of handleKomodoError -/

/-- A JavaScript runtime value as it can reach handleKomodoError: a
primitive, a plain object identified by its heap address, or an Error
instance carrying its message. -/
inductive JSValue where
  | undef : JSValue
  | jsNull : JSValue
  | jsBool : Bool → JSValue
  | jsInt : Int → JSValue
  | jsStr : String → JSValue
  | jsObj : Nat → JSValue
  | jsErr : String → JSValue
deriving DecidableEq

/-- The object heap: address-indexed property lists, so self-referencing
(circular) objects are representable. -/
def JSHeap : Type := List (List (String × JSValue))

/-- JSON escaping of one character inside a string literal. -/
def jsonEscapeChar (c : Char) : List Char :=
  if c = '"' then ['\\', '"']
  else if c = '\\' then ['\\', '\\']
  else if c = '\n' then ['\\', 'n']
  else if c = '\t' then ['\\', 't']
  else if c = '\r' then ['\\', 'r']
  else [c]

/-- JSON string literal for s, with surrounding quotes. -/
def jsonEscape (s : String) : String :=
  String.mk ('"' :: (s.data.map jsonEscapeChar).flatten ++ ['"'])

/-- Join a list of strings with a separator, Array.prototype.join. -/
def joinSep (sep : String) : List String → String
  | [] => ""
  | [s] => s
  | s :: rest => s ++ sep ++ joinSep sep rest

/-- JSON.stringify with V8-style cycle detection: a some result is the
serialised text, a none result is JavaScript undefined (for undefined
values, which are omitted as properties), and an error is a thrown
exception.  Fuel decreases once per object-nesting level; since every
nesting step pushes a fresh address on the stack, heap length plus two
units are always sufficient and the fuel branch is unreachable from
stringify below. -/
def stringifyV (h : JSHeap) : Nat → List Nat → JSValue → Except String (Option String)
  | 0, _, _ => Except.error "Maximum call stack size exceeded"
  | fuel + 1, stack, v =>
    match v with
    | JSValue.undef => Except.ok none
    | JSValue.jsNull => Except.ok (some "null")
    | JSValue.jsBool b => Except.ok (some (if b then "true" else "false"))
    | JSValue.jsInt n => Except.ok (some (toString n))
    | JSValue.jsStr s => Except.ok (some (jsonEscape s))
    | JSValue.jsErr _ => Except.ok (some "\x7b\x7d")
    | JSValue.jsObj a =>
      if a ∈ stack then Except.error "Converting circular structure to JSON"
      else
        match h.get? a with
        | none => Except.ok (some "null")
        | some fields =>
          let step := fun (kv : String × JSValue)
              (acc : Except String (List String)) =>
            match stringifyV h fuel (a :: stack) kv.2 with
            | Except.error e => Except.error e
            | Except.ok none => acc
            | Except.ok (some sv) =>
              match acc with
              | Except.error e => Except.error e
              | Except.ok parts =>
                Except.ok ((jsonEscape kv.1 ++ ":" ++ sv) :: parts)
          match fields.foldr step (Except.ok []) with
          | Except.error e => Except.error e
          | Except.ok parts =>
            Except.ok (some ("\x7b" ++ joinSep "," parts ++ "\x7d"))

/-- Top-level JSON.stringify on a value in heap h. -/
def stringify (h : JSHeap) (v : JSValue) : Except String (Option String) :=
  stringifyV h (h.length + 2) [] v

/-- The String(v) coercion for the values of the model. -/
def jsToString : JSValue → String
  | JSValue.undef => "undefined"
  | JSValue.jsNull => "null"
  | JSValue.jsBool b => if b then "true" else "false"
  | JSValue.jsInt n => toString n
  | JSValue.jsStr s => s
  | JSValue.jsObj _ => "[object Object]"
  | JSValue.jsErr m => "Error: " ++ m

/-- handleKomodoError: normalise the error exactly as the source does
(message of an Error instance; JSON.stringify of a non-null object; String
coercion otherwise), sanitize it against the registry, and wrap it in the
MCP error shape.  An exception raised by JSON.stringify propagates as an
error result. -/
def handleKomodoError (reg : List (List Char)) (h : JSHeap)
    (context : String) (error : JSValue) : Except String McpErrorResponse :=
  let raw : Except String String :=
    match error with
    | JSValue.jsErr msg => Except.ok msg
    | JSValue.jsObj a =>
      match stringify h (JSValue.jsObj a) with
      | Except.error e => Except.error e
      | Except.ok (some s) => Except.ok s
      | Except.ok none => Except.ok "undefined"
    | v => Except.ok (jsToString v)
  match raw with
  | Except.error e => Except.error e
  | Except.ok rawMessage =>
    Except.ok
      { content := [{ type := "text",
                      text := "Error " ++ context ++ ": " ++
                        sanitizeS reg rawMessage }],
        isError := true }

/-- The normalisation step by itself, stated for the amended claim C5: the
message property when the error is an Error instance, JSON.stringify for
other non-null objects, String coercion otherwise. -/
def specNormalize (h : JSHeap) (error : JSValue) : Except String String :=
  match error with
  | JSValue.jsErr msg => Except.ok msg
  | JSValue.jsObj a =>
    match stringify h (JSValue.jsObj a) with
    | Except.error e => Except.error e
    | Except.ok (some s) => Except.ok s
    | Except.ok none => Except.ok "undefined"
  | v => Except.ok (jsToString v)

/-! ### Configuration loader: src/core/config.ts -/

/-- The three access tiers. -/
inductive AccessTier where
  | readOnly : AccessTier
  | readExecute : AccessTier
  | full : AccessTier
deriving DecidableEq

/-- JavaScript truthiness of an optional environment string: undefined and
the empty string are falsy. -/
def jsTruthy (v : Option String) : Bool :=
  match v with
  | none => false
  | some s => !(s == "")

/-- String.prototype.trim. -/
def jsTrim (l : List Char) : List Char :=
  ((l.dropWhile jsWs).reverse.dropWhile jsWs).reverse

/-- String.prototype.split with separator comma: "".split gives one empty
segment, and every comma starts a new segment. -/
def jsSplitComma : List Char → List (List Char)
  | [] => [[]]
  | c :: rest =>
    if c = ',' then [] :: jsSplitComma rest
    else
      match jsSplitComma rest with
      | seg :: segs => (c :: seg) :: segs
      | [] => [[c]]

/-- parseAccessTier: the two non-default tier strings verbatim, anything
else (including absence) silently defaults to full. -/
def parseAccessTier (v : Option String) : AccessTier :=
  if v = some "read-only" then AccessTier.readOnly
  else if v = some "read-execute" then AccessTier.readExecute
  else AccessTier.full

/-- parseCategories: undefined or empty means no restriction (none);
otherwise split on commas, trim each segment, drop empty segments. -/
def parseCategories (v : Option String) : Option (List String) :=
  match v with
  | none => none
  | some s =>
    if s = "" then none
    else
      some ((((jsSplitComma s.data).map jsTrim).filter
        (fun seg => !seg.isEmpty)).map (fun seg => String.mk seg))

/-- The environment variables the loader reads. -/
structure Env where
  KOMODO_URL : Option String
  KOMODO_API_KEY : Option String
  KOMODO_API_SECRET : Option String
  KOMODO_ACCESS_TIER : Option String
  KOMODO_CATEGORIES : Option String
  DEBUG : Option String
deriving DecidableEq

/-- The application configuration produced by loadConfig. -/
structure AppConfig where
  url : String
  apiKey : String
  apiSecret : String
  accessTier : AccessTier
  categories : Option (List String)
  debug : Bool
deriving DecidableEq

/-- The missing-variable names collected by loadConfig, in source order. -/
def missingVars (env : Env) : List String :=
  (if jsTruthy env.KOMODO_URL then [] else ["KOMODO_URL"]) ++
  (if jsTruthy env.KOMODO_API_KEY then [] else ["KOMODO_API_KEY"]) ++
  (if jsTruthy env.KOMODO_API_SECRET then [] else ["KOMODO_API_SECRET"])

/-- The loader's error message, a fixed function of the missing names. -/
def mkErrMsg (missing : List String) : String :=
  "Missing required environment variables: " ++ joinSep ", " missing ++
    ". Set these variables to connect to your Komodo instance."

/-- The url.replace of the trailing-slash regex with the empty string:
removes the maximal run of trailing slashes. -/
def stripTrailingSlashes (s : String) : String :=
  String.mk (s.data.reverse.dropWhile (fun c => c == '/')).reverse

/-- loadConfig: throws a descriptive error when any required variable is
falsy, otherwise builds the configuration with no defaulting of the three
required values (only trailing slashes of the url are stripped). -/
def loadConfig (env : Env) : Except String AppConfig :=
  let missing := missingVars env
  if missing.length > 0 then Except.error (mkErrMsg missing)
  else
    Except.ok
      { url := stripTrailingSlashes (env.KOMODO_URL.getD ""),
        apiKey := env.KOMODO_API_KEY.getD "",
        apiSecret := env.KOMODO_API_SECRET.getD "",
        accessTier := parseAccessTier env.KOMODO_ACCESS_TIER,
        categories := parseCategories env.KOMODO_CATEGORIES,
        debug := jsTruthy env.DEBUG }

/-! ### Access-tier gate: src/core/tools.ts -/

/-- TIER_LEVELS: the ordinal rank of each access tier. -/
def TIER_LEVELS : AccessTier → Nat
  | AccessTier.readOnly => 0
  | AccessTier.readExecute => 1
  | AccessTier.full => 2

/-- The fields of a tool registration relevant to the gate's decision. -/
structure ToolRegistrationOptions where
  name : String
  description : String
  accessTier : AccessTier
  category : String
deriving DecidableEq

/-- registerTool's decision: skip when the configured tier ranks below the
tool's tier, skip when a category allowlist is present and does not contain
the tool's category, register (true) otherwise. -/
def registerTool (config : AppConfig) (options : ToolRegistrationOptions) :
    Bool :=
  if TIER_LEVELS config.accessTier < TIER_LEVELS options.accessTier then
    false
  else if (match config.categories with
           | none => false
           | some cats => !(cats.contains options.category)) then
    false
  else true

/-- Names of the tools a fixed descriptor list registers under a
configuration. -/
def registeredNames (config : AppConfig)
    (ds : List ToolRegistrationOptions) : List String :=
  (ds.filter (fun o => registerTool config o)).map (fun o => o.name)

/-! ### Side conditions for the sanitizer theorems -/

/-- Separation of a pattern q from a replacement text t: q is non-empty,
neither contains the other, no non-empty suffix of q equals a prefix of t
of the same length, and no non-empty proper prefix of q equals a suffix of
t.  Under this condition an inserted copy of t can neither contain an
occurrence of q nor complete one across its boundaries. -/
def SepFrom (q t : List Char) : Prop :=
  q ≠ [] ∧ ¬ q <:+: t ∧ ¬ t <:+: q ∧
  ∀ L, L < q.length + 1 → 0 < L → L ≤ t.length →
    q.drop (q.length - L) ≠ t.take L ∧
    (L < q.length → q.take L ≠ t.drop (t.length - L))

instance (q t : List Char) : Decidable (SepFrom q t) := by
  unfold SepFrom
  exact inferInstance

instance {ε α : Type} [DecidableEq ε] [DecidableEq α] :
    DecidableEq (Except ε α) := fun x y =>
  match x, y with
  | Except.error a, Except.error b =>
    if h : a = b then isTrue (by rw [h])
    else isFalse (by intro hc; cases hc; exact h rfl)
  | Except.error _, Except.ok _ => isFalse (by intro hc; cases hc)
  | Except.ok _, Except.error _ => isFalse (by intro hc; cases hc)
  | Except.ok a, Except.ok b =>
    if h : a = b then isTrue (by rw [h])
    else isFalse (by intro hc; cases hc; exact h rfl)

/-! ### General helper lemmas -/

theorem str_data_append (s t : String) : (s ++ t).data = s.data ++ t.data := by
  cases s
  cases t
  rfl

theorem infix_append_right {q x y : List Char} (h : q <:+: y) :
    q <:+: x ++ y := by
  obtain ⟨a, b, rfl⟩ := h
  exact ⟨x ++ a, b, by simp⟩

theorem infix_append_left {q x y : List Char} (h : q <:+: x) :
    q <:+: x ++ y := by
  obtain ⟨a, b, rfl⟩ := h
  exact ⟨a, b ++ y, by simp⟩

theorem dropWhile_eq_self_of_prefix {p : Char → Bool} {y l : List Char}
    (hl : l.dropWhile p = l) (hy : y <+: l) : y.dropWhile p = y := by
  cases y with
  | nil => rfl
  | cons c ys =>
    obtain ⟨t, ht⟩ := hy
    have hc : p c = false := by
      rcases hpc : p c with _ | _
      · rfl
      · exfalso
        rw [← ht, List.cons_append, List.dropWhile_cons, hpc, if_pos rfl] at hl
        have hlen : (List.dropWhile p (ys ++ t)).length ≤ (ys ++ t).length :=
          (List.dropWhile_suffix p).length_le
        rw [hl] at hlen
        simp at hlen
    rw [List.dropWhile_cons, hc]
    simp

/-- jsTrim is idempotent. -/
theorem jsTrim_idem (x : List Char) : jsTrim (jsTrim x) = jsTrim x := by
  unfold jsTrim
  set a := x.dropWhile jsWs with ha
  set b := a.reverse.dropWhile jsWs with hb
  have hbidem : b.dropWhile jsWs = b := by
    rw [hb]
    exact List.dropWhile_idempotent jsWs a.reverse
  have haidem : a.dropWhile jsWs = a := by
    rw [ha]
    exact List.dropWhile_idempotent jsWs x
  have hypref : b.reverse <+: a := by
    rw [← a.reverse_reverse]
    exact List.reverse_prefix.mpr (List.dropWhile_suffix jsWs)
  have h1 : b.reverse.dropWhile jsWs = b.reverse :=
    dropWhile_eq_self_of_prefix haidem hypref
  rw [h1, List.reverse_reverse, hbidem]

/-- Every member of the missing list occurs in the loader's error message. -/
theorem infix_joinSep {n : String} : ∀ {l : List String}, n ∈ l →
    n.data <:+: (joinSep ", " l).data := by
  intro l
  induction l with
  | nil => intro h; cases h
  | cons a rest ih =>
    intro h
    cases rest with
    | nil =>
      rcases h with _ | ⟨_, h2⟩
      · exact ⟨[], [], by simp [joinSep]⟩
      · cases h2
    | cons b rest2 =>
      rcases h with _ | ⟨_, h2⟩
      · show n.data <:+: (n ++ ", " ++ joinSep ", " (b :: rest2)).data
        rw [str_data_append, str_data_append]
        exact infix_append_left (infix_append_left ⟨[], [], by simp⟩)
      · show n.data <:+: (a ++ ", " ++ joinSep ", " (b :: rest2)).data
        rw [str_data_append]
        exact infix_append_right (ih h2)

theorem infix_mkErrMsg {n : String} {l : List String} (h : n ∈ l) :
    n.data <:+: (mkErrMsg l).data := by
  unfold mkErrMsg
  rw [str_data_append, str_data_append]
  exact infix_append_left (infix_append_right (infix_joinSep h))

/-- Characterisation of the gate's decision. -/
theorem registerTool_true_iff (config : AppConfig)
    (options : ToolRegistrationOptions) :
    registerTool config options = true ↔
      (TIER_LEVELS options.accessTier ≤ TIER_LEVELS config.accessTier ∧
       (config.categories = none ∨
        ∃ cats, config.categories = some cats ∧ options.category ∈ cats)) := by
  constructor
  · intro h
    unfold registerTool at h
    by_cases hlt : TIER_LEVELS config.accessTier < TIER_LEVELS options.accessTier
    · rw [if_pos hlt] at h
      cases h
    · rw [if_neg hlt] at h
      refine ⟨by omega, ?_⟩
      rcases hc : config.categories with _ | cats
      · exact Or.inl rfl
      · simp only [hc] at h
        rcases hmem : cats.contains options.category with _ | _
        · rw [hmem] at h
          simp at h
        · exact Or.inr ⟨cats, rfl, List.elem_iff.mp hmem⟩
  · rintro ⟨hle, hcat⟩
    unfold registerTool
    rw [if_neg (by omega)]
    rcases hcat with hnone | ⟨cats, hc, hmem⟩
    · rw [hnone]
      simp
    · have hcon : cats.contains options.category = true := List.elem_iff.mpr hmem
      simp only [hc, hcon]
      simp

theorem jsTruthy_some {v : Option String} (h : jsTruthy v = true) :
    ∃ s, v = some s ∧ s ≠ "" := by
  rcases v with _ | s
  · cases h
  · refine ⟨s, rfl, ?_⟩
    simpa [jsTruthy] using h

theorem missingVars_nil {env : Env} (h : missingVars env = []) :
    jsTruthy env.KOMODO_URL = true ∧ jsTruthy env.KOMODO_API_KEY = true ∧
      jsTruthy env.KOMODO_API_SECRET = true := by
  unfold missingVars at h
  rcases h1 : jsTruthy env.KOMODO_URL with _ | _ <;> rw [h1] at h <;>
    rcases h2 : jsTruthy env.KOMODO_API_KEY with _ | _ <;> rw [h2] at h <;>
      rcases h3 : jsTruthy env.KOMODO_API_SECRET with _ | _ <;> rw [h3] at h <;>
        simp_all

/-! ### Claim C2 -/

/-- C2 counterexample: under a full-tier configuration whose category
allowlist is the empty list, a full-tier descriptor is NOT registered, so
"registered iff config.accessTier == full" is false as stated. -/
theorem c2_register_full_cex :
    ¬ (registerTool ⟨"u", "k", "s", AccessTier.full, some [], false⟩
         ⟨"komodo_write", "d", AccessTier.full, "write"⟩ = true ↔
       (⟨"u", "k", "s", AccessTier.full, some [], false⟩ : AppConfig).accessTier
         = AccessTier.full) := by
  decide

/-- C2 (amended): registerTool returns true exactly when the configured
tier ranks at least the descriptor's tier AND the category allowlist is
absent or contains the descriptor's category; and, provided the allowlist
admits the descriptor's category, a full-tier descriptor is registered iff
the configured tier is full (never under read-only or read-execute). -/
theorem c2_register_decision (config : AppConfig)
    (options : ToolRegistrationOptions) :
    (registerTool config options = true ↔
      (TIER_LEVELS options.accessTier ≤ TIER_LEVELS config.accessTier ∧
       (config.categories = none ∨
        ∃ cats, config.categories = some cats ∧ options.category ∈ cats))) ∧
    (options.accessTier = AccessTier.full →
      (config.categories = none ∨
       ∃ cats, config.categories = some cats ∧ options.category ∈ cats) →
      (registerTool config options = true ↔
        config.accessTier = AccessTier.full)) := by
  refine ⟨registerTool_true_iff config options, ?_⟩
  intro hfull hcat
  rw [registerTool_true_iff]
  constructor
  · rintro ⟨hle, _⟩
    rw [hfull] at hle
    cases hconf : config.accessTier with
    | readOnly => rw [hconf] at hle; exact absurd hle (by decide)
    | readExecute => rw [hconf] at hle; exact absurd hle (by decide)
    | full => rfl
  · intro hconf
    rw [hfull, hconf]
    exact ⟨le_refl _, hcat⟩

/-- C2 witness: the amended equivalence applied at a concrete read-execute
configuration and full-tier descriptor with no allowlist. -/
theorem c2_register_decision_witness :
    registerTool ⟨"u", "k", "s", AccessTier.readExecute, none, false⟩
        ⟨"komodo_deploy", "d", AccessTier.full, "deployments"⟩ = true ↔
      (⟨"u", "k", "s", AccessTier.readExecute, none, false⟩ : AppConfig).accessTier
        = AccessTier.full :=
  (c2_register_decision _ _).2 rfl (Or.inl rfl)

/-! ### Claim C3 -/

/-- C3: tier monotonicity of the gate.  For a fixed descriptor list and two
configurations with identical category allowlists, if the first ranks at
most the second then every tool name registered under the first is also
registered under the second. -/
theorem c3_tier_monotonic (c1 c2 : AppConfig)
    (ds : List ToolRegistrationOptions)
    (ht : TIER_LEVELS c1.accessTier ≤ TIER_LEVELS c2.accessTier)
    (hc : c1.categories = c2.categories) :
    registeredNames c1 ds ⊆ registeredNames c2 ds := by
  intro x hx
  unfold registeredNames at hx ⊢
  simp only [List.mem_map, List.mem_filter] at hx ⊢
  obtain ⟨o, ⟨ho, hreg⟩, rfl⟩ := hx
  refine ⟨o, ⟨ho, ?_⟩, rfl⟩
  rw [registerTool_true_iff] at hreg ⊢
  exact ⟨hreg.1.trans ht, by rw [← hc]; exact hreg.2⟩

/-- C3 witness: monotonicity applied at read-only versus full over a
two-descriptor list. -/
theorem c3_tier_monotonic_witness :
    TIER_LEVELS AccessTier.readOnly ≤ TIER_LEVELS AccessTier.full ∧
    registeredNames ⟨"u", "k", "s", AccessTier.readOnly, none, false⟩
        [⟨"komodo_list", "d", AccessTier.readOnly, "core"⟩,
         ⟨"komodo_write", "d", AccessTier.full, "write"⟩] ⊆
      registeredNames ⟨"u", "k", "s", AccessTier.full, none, false⟩
        [⟨"komodo_list", "d", AccessTier.readOnly, "core"⟩,
         ⟨"komodo_write", "d", AccessTier.full, "write"⟩] :=
  ⟨by decide, c3_tier_monotonic _ _ _ (by decide) rfl⟩

/-! ### Claim C9 -/

/-- C9: the tier parser returns the two restrictive tier names verbatim and
silently defaults every other value, absent or arbitrary, to full. -/
theorem c9_tier_fallback (v : Option String)
    (h1 : v ≠ some "read-only") (h2 : v ≠ some "read-execute") :
    parseAccessTier v = AccessTier.full ∧
    parseAccessTier (some "read-only") = AccessTier.readOnly ∧
    parseAccessTier (some "read-execute") = AccessTier.readExecute := by
  refine ⟨?_, by decide, by decide⟩
  unfold parseAccessTier
  rw [if_neg h1, if_neg h2]

/-- C9 witness: a misspelled tier value falls back to full. -/
theorem c9_tier_fallback_witness :
    parseAccessTier (some "Read-Only") = AccessTier.full ∧
    parseAccessTier (some "read-only") = AccessTier.readOnly ∧
    parseAccessTier (some "read-execute") = AccessTier.readExecute :=
  c9_tier_fallback (some "Read-Only") (by decide) (by decide)

/-! ### Claim C8 -/

/-- C8: category allowlist parsing.  Absent or empty input yields the
distinguished no-restriction value none; any other input yields some list
obtained by splitting on commas, trimming and dropping empty segments, and
every returned segment is non-empty and trim-fixed; an all-separator input
yields some of the empty list, which is distinct from none. -/
theorem c8_parse_categories :
    parseCategories none = none ∧
    parseCategories (some "") = none ∧
    (∀ s : String, s ≠ "" → ∃ l, parseCategories (some s) = some l) ∧
    (∀ (s : String) (l : List String), parseCategories (some s) = some l →
       l = (((jsSplitComma s.data).map jsTrim).filter
             (fun seg => !seg.isEmpty)).map (fun seg => String.mk seg) ∧
       ∀ seg ∈ l, seg ≠ "" ∧ jsTrim seg.data = seg.data) ∧
    parseCategories (some ", ,") = some [] := by
  refine ⟨rfl, by decide, ?_, ?_, by decide⟩
  · intro s hs
    simp only [parseCategories]
    rw [if_neg hs]
    exact ⟨_, rfl⟩
  · intro s l hl
    simp only [parseCategories] at hl
    by_cases hs : s = ""
    · rw [if_pos hs] at hl
      cases hl
    · rw [if_neg hs] at hl
      injection hl with hl
      refine ⟨hl.symm, ?_⟩
      intro seg hseg
      rw [← hl] at hseg
      simp only [List.mem_map] at hseg
      obtain ⟨seg0, hseg0, rfl⟩ := hseg
      simp only [List.mem_filter] at hseg0
      obtain ⟨hmem0, hne0⟩ := hseg0
      constructor
      · intro hcon
        have hdata := congrArg String.data hcon
        simp only [String.data] at hdata
        rw [hdata] at hne0
        simp [List.isEmpty] at hne0
      · simp only [List.mem_map] at hmem0
        obtain ⟨x, _, rfl⟩ := hmem0
        show jsTrim (jsTrim x) = jsTrim x
        exact jsTrim_idem x

/-- C8 witness: a non-empty raw value parses to some list. -/
theorem c8_parse_categories_witness :
    ∃ l, parseCategories (some "servers, stacks") = some l :=
  c8_parse_categories.2.2.1 "servers, stacks" (by decide)

/-! ### Claim C7 -/

/-- C7 counterexample: with the url missing and the api secret set to the
value M, the loader's error message contains the string M, which is a
credential value, so "contains no credential value" is false as literally
stated (the wording collides with the fixed message text). -/
theorem c7_missing_vars_cex :
    loadConfig ⟨none, some "k", some "M", none, none, none⟩ =
      Except.error "Missing required environment variables: KOMODO_URL. Set these variables to connect to your Komodo instance." ∧
    (⟨none, some "k", some "M", none, none, none⟩ : Env).KOMODO_API_SECRET
      = some "M" ∧
    "M".data <:+: ("Missing required environment variables: KOMODO_URL. Set these variables to connect to your Komodo instance." : String).data := by
  refine ⟨by decide, rfl, by decide⟩

/-- C7 (amended): when any required variable is falsy the loader fails with
the single fixed message determined by the list of missing names alone (so
no credential value is interpolated into it), and that message contains
every missing variable name; when none are missing it succeeds with the
url, api key and api secret taken verbatim from the environment (only
trailing slashes of the url are stripped), defaulting none of them. -/
theorem c7_load_config_reports_all_missing (env : Env) :
    (missingVars env ≠ [] →
       loadConfig env = Except.error (mkErrMsg (missingVars env)) ∧
       ∀ n ∈ missingVars env, n.data <:+: (mkErrMsg (missingVars env)).data) ∧
    (missingVars env = [] →
       ∃ u k s, env.KOMODO_URL = some u ∧ env.KOMODO_API_KEY = some k ∧
         env.KOMODO_API_SECRET = some s ∧
         loadConfig env = Except.ok
           { url := stripTrailingSlashes u, apiKey := k, apiSecret := s,
             accessTier := parseAccessTier env.KOMODO_ACCESS_TIER,
             categories := parseCategories env.KOMODO_CATEGORIES,
             debug := jsTruthy env.DEBUG }) := by
  constructor
  · intro hne
    have hlen : (missingVars env).length > 0 :=
      List.length_pos.mpr hne
    constructor
    · unfold loadConfig
      rw [if_pos hlen]
    · intro n hn
      exact infix_mkErrMsg hn
  · intro hnil
    obtain ⟨hu, hk, hs⟩ := missingVars_nil hnil
    obtain ⟨u, huv, _⟩ := jsTruthy_some hu
    obtain ⟨k, hkv, _⟩ := jsTruthy_some hk
    obtain ⟨s, hsv, _⟩ := jsTruthy_some hs
    refine ⟨u, k, s, huv, hkv, hsv, ?_⟩
    unfold loadConfig
    rw [if_neg (by rw [hnil]; simp)]
    rw [huv, hkv, hsv]
    rfl

/-- C7 witness: all three variables missing at once are all reported. -/
theorem c7_load_config_witness :
    loadConfig ⟨none, none, none, none, none, none⟩ =
      Except.error (mkErrMsg (missingVars ⟨none, none, none, none, none, none⟩)) ∧
    ∀ n ∈ missingVars ⟨none, none, none, none, none, none⟩,
      n.data <:+: (mkErrMsg (missingVars ⟨none, none, none, none, none, none⟩)).data :=
  (c7_load_config_reports_all_missing _).1 (by decide)

/-! ### Claim C10 -/

/-- C10: a required variable set to the empty string behaves exactly as an
absent one: the loader's result is unchanged by replacing an empty-string
required variable with an absent one, an empty api key puts
KOMODO_API_KEY into the failing error message, and a successfully loaded
configuration can never hold an empty credential. -/
theorem c10_empty_credentials (env : Env) :
    (loadConfig { env with KOMODO_URL := some "" } =
       loadConfig { env with KOMODO_URL := none }) ∧
    (loadConfig { env with KOMODO_API_KEY := some "" } =
       loadConfig { env with KOMODO_API_KEY := none }) ∧
    (loadConfig { env with KOMODO_API_SECRET := some "" } =
       loadConfig { env with KOMODO_API_SECRET := none }) ∧
    (env.KOMODO_API_KEY = some "" →
       loadConfig env = Except.error (mkErrMsg (missingVars env)) ∧
       "KOMODO_API_KEY".data <:+: (mkErrMsg (missingVars env)).data) ∧
    (∀ cfg, loadConfig env = Except.ok cfg →
       cfg.apiKey ≠ "" ∧ cfg.apiSecret ≠ "") := by
  refine ⟨rfl, rfl, rfl, ?_, ?_⟩
  · intro h
    have hmem : "KOMODO_API_KEY" ∈ missingVars env := by
      unfold missingVars
      rw [h]
      simp [jsTruthy]
    have hlen : (missingVars env).length > 0 :=
      List.length_pos.mpr (List.ne_nil_of_mem hmem)
    constructor
    · unfold loadConfig
      rw [if_pos hlen]
    · exact infix_mkErrMsg hmem
  · intro cfg hcfg
    unfold loadConfig at hcfg
    by_cases hlen : (missingVars env).length > 0
    · rw [if_pos hlen] at hcfg
      cases hcfg
    · rw [if_neg hlen] at hcfg
      injection hcfg with hcfg
      have hnil : missingVars env = [] := by
        rcases hmv : missingVars env with _ | ⟨a, rest⟩
        · rfl
        · rw [hmv] at hlen
          simp at hlen
      obtain ⟨_, hk, hs⟩ := missingVars_nil hnil
      obtain ⟨k, hkv, hkne⟩ := jsTruthy_some hk
      obtain ⟨s, hsv, hsne⟩ := jsTruthy_some hs
      rw [← hcfg]
      constructor
      · show env.KOMODO_API_KEY.getD "" ≠ ""
        rw [hkv]
        simpa using hkne
      · show env.KOMODO_API_SECRET.getD "" ≠ ""
        rw [hsv]
        simpa using hsne

/-! ### Sanitizer machinery: structure of the global-replace scanner -/

theorem rewriteScanF_irrel (m : List Char → Option Nat) (t : List Char) :
    ∀ (f1 f2 : Nat) (s : List Char), s.length < f1 → s.length < f2 →
      rewriteScanF m t f1 s = rewriteScanF m t f2 s := by
  intro f1
  induction f1 with
  | zero => intro f2 s h1 _; simp at h1
  | succ g ih =>
    intro f2 s h1 h2
    cases s with
    | nil =>
      cases f2 with
      | zero => simp at h2
      | succ g2 => rfl
    | cons c s' =>
      cases f2 with
      | zero => simp at h2
      | succ g2 =>
        simp only [List.length_cons] at h1 h2
        cases hm : m (c :: s') with
        | some L =>
          simp only [rewriteScanF, hm]
          have hd : (s'.drop (L - 1)).length ≤ s'.length := by
            rw [List.length_drop]
            omega
          rw [ih g2 (s'.drop (L - 1)) (by omega) (by omega)]
        | none =>
          simp only [rewriteScanF, hm]
          rw [ih g2 s' (by omega) (by omega)]

theorem rewriteScan_nil (m : List Char → Option Nat) (t : List Char) :
    rewriteScan m t [] = [] := rfl

theorem rewriteScan_cons_some {m : List Char → Option Nat} {t : List Char}
    {c : Char} {s : List Char} {L : Nat} (hm : m (c :: s) = some L) :
    rewriteScan m t (c :: s) = t ++ rewriteScan m t (s.drop (L - 1)) := by
  unfold rewriteScan
  simp only [List.length_cons, rewriteScanF, hm]
  have hd : (s.drop (L - 1)).length ≤ s.length := by
    rw [List.length_drop]
    omega
  rw [rewriteScanF_irrel m t (s.length + 1) ((s.drop (L - 1)).length + 1)
    (s.drop (L - 1)) (by omega) (by omega)]

theorem rewriteScan_cons_none {m : List Char → Option Nat} {t : List Char}
    {c : Char} {s : List Char} (hm : m (c :: s) = none) :
    rewriteScan m t (c :: s) = c :: rewriteScan m t s := by
  unfold rewriteScan
  simp only [List.length_cons, rewriteScanF, hm]

/-- Decomposition of an occurrence inside an append: it lies in the left
part, in the right part, or spans the boundary. -/
theorem infix_append_split {q x y : List Char} (h : q <:+: x ++ y) :
    q <:+: x ∨ q <:+: y ∨
    ∃ L, 0 < L ∧ L < q.length ∧ L ≤ x.length ∧
      q.take L <:+ x ∧ q.drop L <+: y := by
  induction x with
  | nil => exact Or.inr (Or.inl h)
  | cons a x' ih =>
    rw [List.cons_append] at h
    rcases List.infix_cons_iff.mp h with hpre | hinf
    · rw [← List.cons_append] at hpre
      by_cases hlen : q.length ≤ (a :: x').length
      · left
        have hq : q = ((a :: x') ++ y).take q.length :=
          List.prefix_iff_eq_take.mp hpre
        rw [List.take_append_of_le_length hlen] at hq
        have : q <+: a :: x' := by
          rw [List.prefix_iff_eq_take]
          exact hq
        exact this.isInfix
      · have hxq : (a :: x') <+: q := by
          refine List.prefix_of_prefix_length_le (List.prefix_append _ _) hpre ?_
          omega
        obtain ⟨rest, hrest⟩ := hxq
        have hresty : rest <+: y := by
          rw [← hrest] at hpre
          exact (List.prefix_append_right_inj (a :: x')).mp hpre
        refine Or.inr (Or.inr ⟨(a :: x').length, by simp, ?_, le_refl _, ?_, ?_⟩)
        · omega
        · rw [← hrest]
          simp [List.take_append_of_le_length]
        · rw [← hrest]
          simpa using hresty
    · rcases ih hinf with h1 | h2 | ⟨L, hL0, hLq, hLx, htake, hdrop⟩
      · exact Or.inl (h1.trans (List.suffix_cons a x').isInfix)
      · exact Or.inr (Or.inl h2)
      · exact Or.inr (Or.inr ⟨L, hL0, hLq, by simp; omega,
          htake.trans (List.suffix_cons a x'), hdrop⟩)

/-- The separation side condition kills boundary-spanning and contained
occurrences, so prepending the replacement text cannot introduce one. -/
theorem SepFrom_not_infix_append {q T X : List Char} (hsep : SepFrom q T)
    (hX : ¬ q <:+: X) : ¬ q <:+: T ++ X := by
  intro h
  rcases infix_append_split h with h1 | h2 | ⟨L, hL0, hLq, hLT, htake, hdrop⟩
  · exact hsep.2.1 h1
  · exact hX h2
  · have htlen : (q.take L).length = L := by
      simp
      omega
    have heq : q.take L = T.drop (T.length - (q.take L).length) :=
      List.suffix_iff_eq_drop.mp htake
    rw [htlen] at heq
    exact ((hsep.2.2.2 L (by omega) hL0 hLT).2 hLq) heq

/-- Suffix-side consequences of the separation condition. -/
theorem SepFrom_suffix_conds {q T : List Char} (hsep : SepFrom q T) :
    (∀ v, v <:+ q → v ≠ [] → ¬ v <+: T) ∧ ¬ T <:+: q := by
  refine ⟨?_, hsep.2.2.1⟩
  intro v hv hvne hvp
  have hvlen : v.length ≤ T.length := hvp.length_le
  have hvlen2 : v.length ≤ q.length := hv.length_le
  have hv0 : 0 < v.length := List.length_pos.mpr hvne
  have heq1 : v = q.drop (q.length - v.length) := List.suffix_iff_eq_drop.mp hv
  have heq2 : v = T.take v.length := List.prefix_iff_eq_take.mp hvp
  have := (hsep.2.2.2 v.length (by omega) hv0 hvlen).1
  rw [← heq1, ← heq2] at this
  exact this rfl

/-- Prefix pullback through the scanner: a non-empty pattern that cannot
begin inside the replacement text and is a prefix of the rewritten image
(under a character map f) was already a prefix of the image of the
input. -/
theorem rewriteScan_prefix_pullback (f : Char → Char)
    (m : List Char → Option Nat) (t : List Char) (_ht : t ≠ []) :
    ∀ (n : Nat) (s u : List Char), s.length ≤ n → u ≠ [] →
      (∀ v, v <:+ u → v ≠ [] → ¬ v <+: t.map f) → ¬ t.map f <:+: u →
      u <+: (rewriteScan m t s).map f → u <+: s.map f := by
  intro n
  induction n with
  | zero =>
    intro s u hs hu _ _ hpre
    have : s = [] := List.length_eq_zero.mp (by omega)
    subst this
    rw [rewriteScan_nil] at hpre
    simp at hpre
    exact absurd hpre hu
  | succ n ih =>
    intro s u hs hu hsuf hinf hpre
    cases s with
    | nil =>
      rw [rewriteScan_nil] at hpre
      simp at hpre
      exact absurd hpre hu
    | cons c s' =>
      simp only [List.length_cons] at hs
      cases hm : m (c :: s') with
      | some L =>
        rw [rewriteScan_cons_some hm, List.map_append] at hpre
        exfalso
        by_cases hlen : u.length ≤ (t.map f).length
        · have hut : u <+: t.map f :=
            List.prefix_of_prefix_length_le hpre (List.prefix_append _ _) hlen
          exact hsuf u (List.suffix_refl u) hu hut
        · have htu : t.map f <+: u :=
            List.prefix_of_prefix_length_le (List.prefix_append _ _) hpre
              (by omega)
          exact hinf htu.isInfix
      | none =>
        rw [rewriteScan_cons_none hm] at hpre
        cases u with
        | nil => exact absurd rfl hu
        | cons u0 u' =>
          simp only [List.map_cons] at hpre ⊢
          rcases List.cons_prefix_cons.mp hpre with ⟨hu0, hu'⟩
          subst hu0
          cases hu'e : u' with
          | nil =>
            simp [hu'e]
          | cons b bs =>
            rw [← hu'e]
            have hu'ne : u' ≠ [] := by rw [hu'e]; simp
            have hu'suf : u' <:+ f c :: u' := List.suffix_cons (f c) u'
            refine List.cons_prefix_cons.mpr ⟨rfl, ?_⟩
            exact ih s' u' (by omega) hu'ne
              (fun v hv hvne => hsuf v (hv.trans hu'suf) hvne)
              (fun hc => hinf (hc.trans hu'suf.isInfix)) hu'

/-- No-introduction through the scanner: a pattern separated from the
replacement text that does not occur in the image of the input does not
occur in the image of the output, for any matcher. -/
theorem rewriteScan_no_intro (f : Char → Char) (m : List Char → Option Nat)
    (t : List Char) (q : List Char) (ht : t ≠ [])
    (hsep : SepFrom q (t.map f)) :
    ∀ (n : Nat) (s : List Char), s.length ≤ n →
      ¬ q <:+: s.map f → ¬ q <:+: (rewriteScan m t s).map f := by
  intro n
  induction n with
  | zero =>
    intro s hs hq
    have : s = [] := List.length_eq_zero.mp (by omega)
    subst this
    rw [rewriteScan_nil]
    exact hq
  | succ n ih =>
    intro s hs hq
    cases s with
    | nil =>
      rw [rewriteScan_nil]
      exact hq
    | cons c s' =>
      simp only [List.length_cons] at hs
      have hqtail : ¬ q <:+: s'.map f := by
        intro hc
        exact hq (hc.trans (List.suffix_cons (f c) (s'.map f)).isInfix)
      cases hm : m (c :: s') with
      | some L =>
        rw [rewriteScan_cons_some hm, List.map_append]
        refine SepFrom_not_infix_append hsep ?_
        refine ih (s'.drop (L - 1)) (by rw [List.length_drop]; omega) ?_
        intro hc
        rw [List.map_drop] at hc
        exact hqtail (hc.trans (List.drop_suffix (L - 1) (s'.map f)).isInfix)
      | none =>
        rw [rewriteScan_cons_none hm]
        intro hocc
        simp only [List.map_cons] at hocc
        rcases List.infix_cons_iff.mp hocc with hpre | hinf
        · cases q with
          | nil => exact hsep.1 rfl
          | cons q0 q' =>
            rcases List.cons_prefix_cons.mp hpre with ⟨hq0, hq'⟩
            subst hq0
            cases hq'e : q' with
            | nil =>
              apply hq
              rw [hq'e]
              exact (List.prefix_iff_eq_take.mpr (by simp [List.map_cons])).isInfix
            | cons b bs =>
              have hq'ne : q' ≠ [] := by rw [hq'e]; simp
              have hq'suf : q' <:+ f c :: q' := List.suffix_cons (f c) q'
              have hconds := SepFrom_suffix_conds hsep
              have hpull : q' <+: s'.map f :=
                rewriteScan_prefix_pullback f m t ht n s' q' (by omega) hq'ne
                  (fun v hv hvne => hconds.1 v (hv.trans hq'suf) hvne)
                  (fun hc => hconds.2 (hc.trans hq'suf.isInfix))
                  hq'
              apply hq
              have : (f c :: q' : List Char) <+: (f c :: s'.map f) :=
                List.cons_prefix_cons.mpr ⟨rfl, hpull⟩
              simpa using this.isInfix
        · exact ih s' (by omega) hqtail hinf

/-- Self-removal: after replaceAll of a pattern separated from the
replacement text, the pattern does not occur in the result. -/
theorem replaceAll_no_self (q t : List Char) (ht : t ≠ [])
    (hsep : SepFrom q t) :
    ∀ (n : Nat) (s : List Char), s.length ≤ n →
      ¬ q <:+: rewriteScan (exactMatcher q) t s := by
  intro n
  induction n with
  | zero =>
    intro s hs
    have : s = [] := List.length_eq_zero.mp (by omega)
    subst this
    rw [rewriteScan_nil]
    intro h
    exact hsep.1 (by simpa using h)
  | succ n ih =>
    intro s hs
    cases s with
    | nil =>
      rw [rewriteScan_nil]
      intro h
      exact hsep.1 (by simpa using h)
    | cons c s' =>
      simp only [List.length_cons] at hs
      cases hm : exactMatcher q (c :: s') with
      | some L =>
        rw [rewriteScan_cons_some hm]
        exact SepFrom_not_infix_append
          (by simpa using hsep)
          (by
            have := ih (s'.drop (L - 1)) (by rw [List.length_drop]; omega)
            simpa using this)
      | none =>
        have hnp : ¬ q <+: c :: s' := by
          intro hc
          unfold exactMatcher at hm
          rw [if_pos (List.isPrefixOf_iff_prefix.mpr hc)] at hm
          cases hm
        rw [rewriteScan_cons_none hm]
        intro hocc
        rcases List.infix_cons_iff.mp hocc with hpre | hinf
        · cases q with
          | nil => exact hsep.1 rfl
          | cons q0 q' =>
            rcases List.cons_prefix_cons.mp hpre with ⟨hq0, hq'⟩
            cases hq'e : q' with
            | nil =>
              apply hnp
              rw [hq'e]
              exact List.cons_prefix_cons.mpr ⟨hq0, List.nil_prefix⟩
            | cons b bs =>
              have hq'ne : q' ≠ [] := by rw [hq'e]; simp
              have hq'suf : q' <:+ q0 :: q' := List.suffix_cons q0 q'
              have hconds := SepFrom_suffix_conds hsep
              have hpull : q' <+: s' := by
                have := rewriteScan_prefix_pullback id
                  (exactMatcher (q0 :: q')) t ht n s' q' (by omega) hq'ne
                  (fun v hv hvne => by
                    simpa using hconds.1 v (hv.trans hq'suf) hvne)
                  (by simpa using
                    fun hc => hconds.2 (List.IsInfix.trans hc hq'suf.isInfix))
                  (by simpa using hq')
                simpa using this
              exact hnp (List.cons_prefix_cons.mpr ⟨hq0, hpull⟩)
        · exact ih s' (by omega) hinf

/-- If the matcher fires nowhere on the suffixes of s, the scanner is the
identity on s. -/
theorem rewriteScan_eq_self (m : List Char → Option Nat) (t : List Char) :
    ∀ (n : Nat) (s : List Char), s.length ≤ n →
      (∀ u, u <:+ s → m u = none) → rewriteScan m t s = s := by
  intro n
  induction n with
  | zero =>
    intro s hs _
    have : s = [] := List.length_eq_zero.mp (by omega)
    subst this
    rfl
  | succ n ih =>
    intro s hs hnone
    cases s with
    | nil => rfl
    | cons c s' =>
      simp only [List.length_cons] at hs
      rw [rewriteScan_cons_none (hnone (c :: s') (List.suffix_refl _))]
      rw [ih s' (by omega)
        (fun u hu => hnone u (hu.trans (List.suffix_cons c s')))]

/-- No secret pass can introduce a separated pattern (under a character
map); the registry patterns are arbitrary non-empty strings. -/
theorem fold_no_intro (f : Char → Char) (q : List Char)
    (hsep : SepFrom q (RED.map f)) :
    ∀ (l : List (List Char)) (x : List Char), (∀ p ∈ l, p ≠ []) →
      ¬ q <:+: x.map f →
      ¬ q <:+: (l.foldl (fun acc p => replaceAllL p RED acc) x).map f := by
  intro l
  induction l with
  | nil => intro x _ hx; simpa using hx
  | cons p rest ih =>
    intro x hne hx
    rw [List.foldl_cons]
    refine ih (replaceAllL p RED x) (fun p2 h2 => hne p2 (by simp [h2])) ?_
    have hpne : p ≠ [] := hne p (by simp)
    unfold replaceAllL
    rw [if_neg (by simpa using hpne)]
    exact rewriteScan_no_intro f (exactMatcher p) RED q (by decide) hsep
      x.length x le_rfl hx

/-- The pass of a registered pattern removes it and no later pass brings it
back: a pattern separated from the redaction token never occurs in the
result of the secret-replacement fold. -/
theorem fold_removes (q : List Char) (hsep : SepFrom q RED)
    (l : List (List Char)) (hq : q ∈ l) (hne : ∀ p ∈ l, p ≠ [])
    (x : List Char) :
    ¬ q <:+: l.foldl (fun acc p => replaceAllL p RED acc) x := by
  obtain ⟨l1, l2, rfl⟩ := List.append_of_mem hq
  rw [List.foldl_append, List.foldl_cons]
  have hqne : q ≠ [] := hne q (by simp)
  have hmid : ¬ q <:+:
      replaceAllL q RED (l1.foldl (fun acc p => replaceAllL p RED acc) x) := by
    unfold replaceAllL
    rw [if_neg (by simpa using hqne)]
    exact replaceAll_no_self q RED (by decide) hsep _ _ le_rfl
  have := fold_no_intro id q (by simpa using hsep) l2
    (replaceAllL q RED (l1.foldl (fun acc p => replaceAllL p RED acc) x))
    (fun p2 h2 => hne p2 (by simp [h2]))
    (by simpa using hmid)
  simpa using this

/-- Registries reachable through registerSensitivePattern contain only
non-empty patterns. -/
theorem registryFrom_nonempty (ps : List (List Char)) :
    ∀ q ∈ registryFrom ps, q ≠ [] := by
  unfold registryFrom
  suffices h : ∀ (l : List (List Char)) (acc : List (List Char)),
      (∀ q ∈ acc, q ≠ []) →
      ∀ q ∈ l.foldl (fun reg p => registerSensitivePattern p reg) acc,
        q ≠ [] by
    exact h ps [] (by simp)
  intro l
  induction l with
  | nil => intro acc hacc; simpa using hacc
  | cons p rest ih =>
    intro acc hacc
    rw [List.foldl_cons]
    refine ih (registerSensitivePattern p acc) ?_
    intro q hq
    unfold registerSensitivePattern at hq
    by_cases hp : p.isEmpty
    · rw [hp] at hq
      simp at hq
      exact hacc q hq
    · rw [Bool.not_eq_true] at hp
      rw [if_pos (by simp [hp])] at hq
      rcases List.mem_append.mp hq with h1 | h2
      · exact hacc q h1
      · have : q = p := by simpa using h2
        subst this
        simpa using hp

/-! ### Claim C1 -/

/-- C1 counterexample: with the single registered secret E, sanitizing the
message E yields the redaction token, which contains E; the output does
contain a substring equal to a registered secret. -/
theorem c1_sanitize_cex :
    ['E'] ∈ registryFrom [['E']] ∧
    ['E'] <:+: sanitizeMessage (registryFrom [['E']]) ['E'] := by
  decide

/-- C1 (amended): for every registry reachable through
registerSensitivePattern and every message, the sanitizer output contains
no occurrence of a registered secret, provided the secret does not overlap
the texts the sanitizer itself inserts (the redaction token and the three
header replacements): it neither contains nor is contained in them, no
non-empty suffix of it is one of their prefixes, and no non-empty proper
prefix of it is one of their suffixes. -/
theorem c1_sanitize_no_secret (ps : List (List Char)) (q msg : List Char)
    (hq : q ∈ registryFrom ps)
    (h1 : SepFrom q RED) (h2 : SepFrom q KEYR) (h3 : SepFrom q SECR)
    (h4 : SepFrom q AUTHR) :
    ¬ q <:+: sanitizeMessage (registryFrom ps) msg := by
  have hne := registryFrom_nonempty ps
  show ¬ q <:+:
    rewriteScan (headerMatcher AUTHN) AUTHR
      (rewriteScan (headerMatcher SECN) SECR
        (rewriteScan (headerMatcher KEYN) KEYR
          ((registryFrom ps).foldl
            (fun sanitized pattern => replaceAllL pattern RED sanitized) msg)))
  have hA : ¬ q <:+:
      (registryFrom ps).foldl
        (fun sanitized pattern => replaceAllL pattern RED sanitized) msg :=
    fold_removes q h1 (registryFrom ps) hq hne msg
  have hK := rewriteScan_no_intro id (headerMatcher KEYN) KEYR q (by decide)
    (by simpa using h2) _ _ le_rfl (by simpa using hA)
  have hS := rewriteScan_no_intro id (headerMatcher SECN) SECR q (by decide)
    (by simpa using h3) _ _ le_rfl hK
  have hAu := rewriteScan_no_intro id (headerMatcher AUTHN) AUTHR q (by decide)
    (by simpa using h4) _ _ le_rfl hS
  simpa using hAu

/-- C1 witness: the amended theorem applied to a realistic secret. -/
theorem c1_sanitize_no_secret_witness :
    "hunter2".data ∈ registryFrom ["hunter2".data] ∧
    SepFrom "hunter2".data RED ∧ SepFrom "hunter2".data KEYR ∧
    SepFrom "hunter2".data SECR ∧ SepFrom "hunter2".data AUTHR ∧
    ¬ "hunter2".data <:+:
      sanitizeMessage (registryFrom ["hunter2".data])
        "fail hunter2 x-api-key: hunter2hunter2".data :=
  ⟨by decide, by decide, by decide, by decide, by decide,
   c1_sanitize_no_secret _ _ _ (by decide) (by decide) (by decide)
     (by decide) (by decide)⟩

/-- A lowercase header name that does not occur case-insensitively in s
produces no header-regex match on any suffix of s. -/
theorem headerMatcher_none_of_no_name {name s : List Char}
    (hself : name.map Char.toLower = name)
    (hno : ¬ name <:+: s.map Char.toLower) :
    ∀ u, u <:+ s → headerMatcher name u = none := by
  intro u hu
  unfold headerMatcher
  rw [if_neg ?hc]
  case hc =>
    intro hci
    unfold ciPrefix at hci
    have heq : (u.take name.length).map Char.toLower = name.map Char.toLower :=
      eq_of_beq hci
    have hpf : name <+: u.map Char.toLower := by
      rw [List.prefix_iff_eq_take, ← List.map_take, heq, hself]
    have hocc : name <:+: s.map Char.toLower :=
      hpf.isInfix.trans (hu.map Char.toLower).isInfix
    exact hno hocc

/-- A header pass is the identity when its name does not occur
case-insensitively in the input. -/
theorem headerPass_id {name t' s : List Char}
    (hself : name.map Char.toLower = name)
    (hno : ¬ name <:+: s.map Char.toLower) :
    rewriteScan (headerMatcher name) t' s = s :=
  rewriteScan_eq_self _ _ s.length s le_rfl
    (fun u hu => headerMatcher_none_of_no_name hself hno u hu)

/-- The secret-replacement fold is the identity when no registered pattern
occurs in the input. -/
theorem fold_id_of_no_secret :
    ∀ (l : List (List Char)) (x : List Char), (∀ p ∈ l, p ≠ []) →
      (∀ p ∈ l, ¬ p <:+: x) →
      l.foldl (fun acc p => replaceAllL p RED acc) x = x := by
  intro l
  induction l with
  | nil => intro x _ _; rfl
  | cons p rest ih =>
    intro x hne hno
    rw [List.foldl_cons]
    have hpx : replaceAllL p RED x = x := by
      unfold replaceAllL
      rw [if_neg (by simpa using hne p (by simp))]
      refine rewriteScan_eq_self _ _ x.length x le_rfl ?_
      intro u hu
      unfold exactMatcher
      rw [if_neg ?hm]
      case hm =>
        intro hpre
        exact hno p (by simp)
          ((List.isPrefixOf_iff_prefix.mp hpre).isInfix.trans hu.isInfix)
    rw [hpx]
    exact ih x (fun p2 h2 => hne p2 (by simp [h2]))
      (fun p2 h2 => hno p2 (by simp [h2]))

/-! ### Claim C6 -/

/-- C6 counterexample: with the single registered secret E, sanitizing E
once gives the redaction token; sanitizing a second time redacts the Es
inside the token and changes the string, so sanitize is not idempotent as
stated. -/
theorem c6_sanitize_idem_cex :
    sanitizeMessage (registryFrom [['E']])
        (sanitizeMessage (registryFrom [['E']]) ['E']) ≠
      sanitizeMessage (registryFrom [['E']]) ['E'] := by
  decide

/-- C6 (amended): sanitize is idempotent provided every registered secret
satisfies the non-overlap condition with respect to the redaction token and
the message contains no case-insensitive occurrence of the three header
names (so that the first pass leaves no material the second pass rewrites
differently). -/
theorem c6_sanitize_idem (ps : List (List Char)) (msg : List Char)
    (hsep : ∀ p ∈ registryFrom ps, SepFrom p RED)
    (hk : ¬ KEYN <:+: msg.map Char.toLower)
    (hsec : ¬ SECN <:+: msg.map Char.toLower)
    (hau : ¬ AUTHN <:+: msg.map Char.toLower) :
    sanitizeMessage (registryFrom ps) (sanitizeMessage (registryFrom ps) msg)
      = sanitizeMessage (registryFrom ps) msg := by
  have hne := registryFrom_nonempty ps
  have key : ∀ x, sanitizeMessage (registryFrom ps) x =
      rewriteScan (headerMatcher AUTHN) AUTHR
        (rewriteScan (headerMatcher SECN) SECR
          (rewriteScan (headerMatcher KEYN) KEYR
            ((registryFrom ps).foldl
              (fun acc p => replaceAllL p RED acc) x))) := fun _ => rfl
  rw [key msg, key]
  set A := (registryFrom ps).foldl (fun acc p => replaceAllL p RED acc) msg
    with hA
  have hkA : ¬ KEYN <:+: A.map Char.toLower := by
    rw [hA]
    exact fold_no_intro Char.toLower KEYN (by decide) (registryFrom ps) msg
      hne hk
  have hsecA : ¬ SECN <:+: A.map Char.toLower := by
    rw [hA]
    exact fold_no_intro Char.toLower SECN (by decide) (registryFrom ps) msg
      hne hsec
  have hauA : ¬ AUTHN <:+: A.map Char.toLower := by
    rw [hA]
    exact fold_no_intro Char.toLower AUTHN (by decide) (registryFrom ps) msg
      hne hau
  have hKid : rewriteScan (headerMatcher KEYN) KEYR A = A :=
    headerPass_id (by decide) hkA
  have hSid : rewriteScan (headerMatcher SECN) SECR A = A :=
    headerPass_id (by decide) hsecA
  have hAid : rewriteScan (headerMatcher AUTHN) AUTHR A = A :=
    headerPass_id (by decide) hauA
  rw [hKid, hSid, hAid]
  have hsecrets : ∀ p ∈ registryFrom ps, ¬ p <:+: A := by
    intro p hp
    rw [hA]
    exact fold_removes p (hsep p hp) _ hp hne msg
  have hfold2 :
      (registryFrom ps).foldl (fun acc p => replaceAllL p RED acc) A = A :=
    fold_id_of_no_secret _ _ hne hsecrets
  rw [hfold2, hKid, hSid, hAid]

/-- C6 witness: the amended idempotence at a concrete registry and
message. -/
theorem c6_sanitize_idem_witness :
    sanitizeMessage (registryFrom ["hunter2".data])
        (sanitizeMessage (registryFrom ["hunter2".data])
          "boom hunter2 again".data)
      = sanitizeMessage (registryFrom ["hunter2".data])
          "boom hunter2 again".data :=
  c6_sanitize_idem ["hunter2".data] "boom hunter2 again".data
    (by decide) (by decide) (by decide) (by decide)

/-! ### Claims C4 and C5 -/

/-- C4: the error wrapper is claimed never to throw, but on a circular
(self-referencing) object the JSON.stringify branch throws a TypeError and
the exception propagates out of handleKomodoError instead of an MCP error
response being returned. -/
theorem c4_wrap_error_throws_on_circular :
    handleKomodoError [] [[("self", JSValue.jsObj 0)]]
        "calling the Komodo API" (JSValue.jsObj 0)
      = Except.error "Converting circular structure to JSON" := by
  rfl

/-- C5 counterexample: for a plain (non-Error) object with a message
property, the wrapper stringifies the whole object instead of taking the
message property, so "its message property if present" is false as
stated. -/
theorem c5_wrap_error_message_property_cex :
    handleKomodoError [] [[("message", JSValue.jsStr "hi")]] "x"
        (JSValue.jsObj 0)
      ≠ Except.ok
          { content := [{ type := "text", text := "Error x: hi" }],
            isError := true } ∧
    handleKomodoError [] [[("message", JSValue.jsStr "hi")]] "x"
        (JSValue.jsObj 0)
      = Except.ok
          { content := [{ type := "text",
                          text := "Error x: \x7b\"message\":\"hi\"\x7d" }],
            isError := true } := by
  exact ⟨by decide, by decide⟩

/-- C5 (amended): whenever the normalisation does not throw — the message
property of an Error instance, JSON.stringify of another non-null object,
String coercion otherwise — handleKomodoError returns exactly the MCP
error shape with the sanitized normalised message appended to the
context. -/
theorem c5_wrap_error_shape (reg : List (List Char)) (h : JSHeap)
    (context : String) (error : JSValue) (msg : String)
    (hn : specNormalize h error = Except.ok msg) :
    handleKomodoError reg h context error = Except.ok
      { content := [{ type := "text",
                      text := "Error " ++ context ++ ": " ++
                        sanitizeS reg msg }],
        isError := true } := by
  cases error with
  | jsObj a =>
    unfold specNormalize at hn
    unfold handleKomodoError
    cases hs : stringify h (JSValue.jsObj a) with
    | error e =>
      simp only [hs] at hn
      cases hn
    | ok o =>
      cases o with
      | none =>
        simp only [hs] at hn
        injection hn with hmsg
        subst hmsg
        simp only [hs]
      | some s =>
        simp only [hs] at hn
        injection hn with hmsg
        subst hmsg
        simp only [hs]
  | jsErr m =>
    injection hn with hmsg
    subst hmsg
    rfl
  | undef =>
    injection hn with hmsg
    subst hmsg
    rfl
  | jsNull =>
    injection hn with hmsg
    subst hmsg
    rfl
  | jsBool b =>
    injection hn with hmsg
    subst hmsg
    rfl
  | jsInt n =>
    injection hn with hmsg
    subst hmsg
    rfl
  | jsStr s =>
    injection hn with hmsg
    subst hmsg
    rfl

/-- C5 witness: the amended shape theorem at a concrete Error instance. -/
theorem c5_wrap_error_shape_witness :
    specNormalize [] (JSValue.jsErr "boom") = Except.ok "boom" ∧
    handleKomodoError [] [] "listing servers" (JSValue.jsErr "boom")
      = Except.ok
          { content := [{ type := "text",
                          text := "Error listing servers: " ++
                            sanitizeS [] "boom" }],
            isError := true } :=
  ⟨rfl, c5_wrap_error_shape [] [] "listing servers" (JSValue.jsErr "boom")
    "boom" rfl⟩

/-- C10 witness: a concrete environment with an empty api key fails and
reports KOMODO_API_KEY. -/
theorem c10_empty_credentials_witness :
    loadConfig ⟨some "https://k", some "", some "s", none, none, none⟩ =
      Except.error (mkErrMsg
        (missingVars ⟨some "https://k", some "", some "s", none, none, none⟩)) ∧
    "KOMODO_API_KEY".data <:+: (mkErrMsg
      (missingVars ⟨some "https://k", some "", some "s", none, none, none⟩)).data :=
  (c10_empty_credentials _).2.2.2.1 rfl

end Komodo
